import Mathlib

/-!
Verification of the mask-tracking max-pooling / max-unpooling operator pair
(`src/operator/max_pooling_mask-inl.h`, `src/operator/max_unpooling-inl.h`).

Tensors are modelled as total functions from coordinates to integer values
(the floating-point data type is abstracted to `Int`: the operators only
compare values and add gradients).  The operator classes and their shape
inference live in the repository and are embedded directly; the mshadow
expression kernels they invoke (`pool`, `max_pool_mask`, `unpool`,
`max_unpool_forward`, `max_unpool_backward`, `mask_backward`, `pad`, `crop`)
are not part of the repository sources and are modelled from the spec, as
marked on each such definition.
-/

namespace MxnetPoolMask

/-- A 2-D spatial plane of a 4-D tensor: value at (row, col). -/
abbrev Plane := Nat → Nat → Int

/-- A 4-D tensor indexed by (batch, channel, row, col). -/
abbrev Tensor4 := Nat → Nat → Nat → Nat → Int

/-- A 2-D plane of mask offsets (flattened in-window positions). -/
abbrev MaskPlane := Nat → Nat → Nat

/-- A 4-D tensor of mask offsets. -/
abbrev MaskTensor4 := Nat → Nat → Nat → Nat → Nat

/-- Modelled from the spec: the mshadow `pad` expression (not under the
repository sources) — the zero-padded view of an H×W plane.  Coordinates are
in the padded grid; cells outside the original `[0,H)×[0,W)` region
(both the `ph`/`pw` padding border and any overhang beyond it) read `0`
(spec §4.1). -/
def paddedVal (H W : Nat) (x : Plane) (ph pw r c : Nat) : Int :=
  if ph ≤ r ∧ r < H + ph ∧ pw ≤ c ∧ c < W + pw then x (r - ph) (c - pw) else 0

/-- Value of window cell `t` (flattened row-major in-window offset) of the
window belonging to output cell `(i, j)`: the window covers padded rows
`[i*sh, i*sh+kh)` and padded cols `[j*sw, j*sw+kw)` (spec §4.1), so offset
`t` is padded position `(i*sh + t/kw, j*sw + t%kw)`. -/
def winVal (H W : Nat) (x : Plane) (ph pw kw sh sw i j t : Nat) : Int :=
  paddedVal H W x ph pw (i * sh + t / kw) (j * sw + t % kw)

/-- The window of output cell `(i, j)` as a list in row-major scan order. -/
def windowList (H W : Nat) (x : Plane) (ph pw kh kw sh sw i j : Nat) : List Int :=
  (List.range (kh * kw)).map (winVal H W x ph pw kw sh sw i j)

/-- Maximum of a list of values (`0` for the empty list; every window list is
nonempty because kernel dimensions are nonzero). -/
def listMax : List Int → Int
  | [] => 0
  | a :: l => l.foldl max a

/-- Modelled from the spec: the mshadow `pool<mshadow::red::maximum>` kernel
(not under the repository sources) — each output cell holds the maximum of
its window over the zero-padded input (spec §4.2). -/
def poolPlane (H W : Nat) (x : Plane) (ph pw kh kw sh sw : Nat) : Plane :=
  fun i j => listMax (windowList H W x ph pw kh kw sh sw i j)

/-- Modelled from the spec: the `max_pool_mask<mshadow::red::maximum>` kernel
(not under the repository sources) — the flattened in-window offset of the
first (row-major) window position attaining the window maximum
(spec §4.2: tie-break earliest in scan order). -/
def maskOff (H W : Nat) (x : Plane) (ph pw kh kw sh sw i j : Nat) : Nat :=
  (windowList H W x ph pw kh kw sh sw i j).indexOf
    (listMax (windowList H W x ph pw kh kw sh sw i j))

/-- Padded-grid coordinates of the input position named by in-window offset
`t` of output cell `(i, j)`. -/
def namedPos (kw sh sw i j t : Nat) : Nat × Nat :=
  (i * sh + t / kw, j * sw + t % kw)

/-- All output cells `(i, j)` with `i < outH`, `j < outW` in row-major scan
order. -/
def cells (outH outW : Nat) : List (Nat × Nat) :=
  (List.range outH).flatMap fun i => (List.range outW).map fun j => (i, j)

/-- Modelled from the spec: the backward chain
`crop(unpool(pad(data), pooled, grad, kernel, stride), in_shape, pad)` of
`MaxPoolingMaskOp::Backward` — the mshadow kernels are not under the
repository sources.  Each output cell adds its upstream gradient to the
single input position named by that cell's maximum location, accumulating
across overlapping windows (spec §4.3); `crop` maps input position `(r, c)`
back to padded position `(r+ph, c+pw)`. -/
def poolBackwardPlane (H W outH outW : Nat) (x dPooled : Plane)
    (ph pw kh kw sh sw : Nat) : Plane :=
  fun r c =>
    (cells outH outW).foldl
      (fun acc ij =>
        if namedPos kw sh sw ij.1 ij.2
            (maskOff H W x ph pw kh kw sh sw ij.1 ij.2) = (r + ph, c + pw)
        then acc + dPooled ij.1 ij.2 else acc) 0

/-- Modelled from the spec: the `max_unpool_forward` kernel (not under the
repository sources) — scatter each data value to the position its mask entry
names; positions named by no mask entry are `0`; on collisions the row-major
last writer wins (spec §4.4).  The source call site passes a single stride
(`stride[0]`), used for both axes; unpooling requires zero padding, so
padded and input coordinates coincide. -/
def unpoolForwardPlane (poolH poolW : Nat) (mask : MaskPlane) (data : Plane)
    (kw s : Nat) : Plane :=
  fun r c =>
    (cells poolH poolW).foldl
      (fun acc ij =>
        if namedPos kw s s ij.1 ij.2 (mask ij.1 ij.2) = (r, c)
        then data ij.1 ij.2 else acc) 0

/-- Modelled from the spec: the `max_unpool_backward` kernel (not under the
repository sources) — gather, for each mask cell, the upstream gradient at
the high-resolution position the mask names (spec §4.5a).  The source call
site passes a single stride (`stride[0]`). -/
def unpoolBackwardDataPlane (mask : MaskPlane) (grad : Plane) (kw s : Nat) : Plane :=
  fun i j =>
    grad (namedPos kw s s i j (mask i j)).1 (namedPos kw s s i j (mask i j)).2

/-- Modelled from the spec: the `mask_backward<Reducer>` kernel (not under
the repository sources) — the gradient with respect to the mask input is
identically zero (spec §4.5b: masks are non-differentiable evidence). -/
def maskBackwardPlane : Plane := fun _ _ => 0

/-- `MaxPoolingMaskParam`: kernel, stride and pad, each an (y, x) pair
(max_pooling_mask-inl.h lines 29-49). -/
structure WindowConfig where
  kh : Nat
  kw : Nat
  sh : Nat
  sw : Nat
  ph : Nat
  pw : Nat
deriving DecidableEq, Repr

/-- `MaxPoolingMaskOp::Forward`, pooled output (max_pooling_mask-inl.h lines
74-81): `pool<Reducer>(pad(data, ph, pw), out_shape, kh, kw, sh, sw)`,
applied independently on every (batch, channel) lane. -/
def MaxPoolingMaskOp.forwardOut (p : WindowConfig) (H W : Nat) (x : Tensor4) : Tensor4 :=
  fun b c => poolPlane H W (x b c) p.ph p.pw p.kh p.kw p.sh p.sw

/-- `MaxPoolingMaskOp::Forward`, mask output (max_pooling_mask-inl.h lines
82-88): `max_pool_mask<Reducer>(pad(data, ph, pw), out_shape, kh, kw, sh)` —
the source passes only `stride[0]`, so the mask kernel uses `sh` for both
axes. -/
def MaxPoolingMaskOp.forwardMask (p : WindowConfig) (H W : Nat) (x : Tensor4) : MaskTensor4 :=
  fun b c => maskOff H W (x b c) p.ph p.pw p.kh p.kw p.sh p.sh

/-- `MaxPoolingMaskOp::Backward` (max_pooling_mask-inl.h lines 112-122):
input gradient of shape H×W from the upstream gradient of shape outH×outW. -/
def MaxPoolingMaskOp.backward (p : WindowConfig) (H W outH outW : Nat)
    (x dPooled : Tensor4) : Tensor4 :=
  fun b c => poolBackwardPlane H W outH outW (x b c) (dPooled b c)
    p.ph p.pw p.kh p.kw p.sh p.sw

/-- `MaxUnpoolingParam` (max_unpooling-inl.h lines 28-60): kernel, stride,
pad and target unpooling size, each an (y, x) pair.  The components are the
unsigned `index_t`, so "non-positive" means zero. -/
structure MaxUnpoolingParam where
  kh : Nat
  kw : Nat
  sh : Nat
  sw : Nat
  ph : Nat
  pw : Nat
  unpoolH : Nat
  unpoolW : Nat
deriving DecidableEq, Repr

/-- The window configuration carried by a `MaxUnpoolingParam`. -/
def MaxUnpoolingParam.toWindow (u : MaxUnpoolingParam) : WindowConfig :=
  ⟨u.kh, u.kw, u.sh, u.sw, u.ph, u.pw⟩

/-- `MaxUnpoolingOp::Forward` (max_unpooling-inl.h lines 70-101): the CHECKs
on lines 85-90 require equal strides and zero padding before the
`max_unpool_forward` kernel runs; a failed CHECK aborts the call, modelled
as `none`.  `poolH`/`poolW` are the shared spatial dims of `data` and
`mask`. -/
def MaxUnpoolingOp.forward (u : MaxUnpoolingParam) (poolH poolW : Nat)
    (data : Tensor4) (mask : MaskTensor4) : Option Tensor4 :=
  if u.sh = u.sw ∧ u.ph = 0 ∧ u.pw = 0 then
    some (fun b c => unpoolForwardPlane poolH poolW (mask b c) (data b c) u.kw u.sh)
  else none

/-- `MaxUnpoolingOp::Backward` (max_unpooling-inl.h lines 103-132): the data
gradient gathers through the mask (`max_unpool_backward`), the mask gradient
is `mask_backward<Reducer>(pad(mask, 0, 0))`. -/
def MaxUnpoolingOp.backward (u : MaxUnpoolingParam) (mask : MaskTensor4)
    (grad : Tensor4) : Tensor4 × Tensor4 :=
  (fun b c => unpoolBackwardDataPlane (mask b c) (grad b c) u.kw u.sh,
   fun _ _ => maskBackwardPlane)

/-- A 4-D tensor shape (batch, channel, height, width). -/
structure TShape4 where
  n : Nat
  c : Nat
  h : Nat
  w : Nat
deriving DecidableEq, Repr

/-- The output-dimension computation of `MaxPoolingMaskProp::InferShape`
(max_pooling_mask-inl.h lines 157-160).  The C++ arithmetic is on unsigned
`index_t`; this embedding is faithful whenever no subtraction underflows,
i.e. `kernel ≤ inDim + 2*pad` (the regime the claims quantify over). -/
def poolOutDim (inDim kernel stride pad : Nat) : Nat :=
  min (inDim + 2 * pad - kernel + stride - 1) (inDim + 2 * pad - 1) / stride + 1

/-- `MaxPoolingMaskProp::InferShape` (max_pooling_mask-inl.h lines 148-167):
pushes the same output shape twice (pooled and mask). -/
def maxPoolingMaskInferShape (p : WindowConfig) (dshape : TShape4) : List TShape4 :=
  let oh := poolOutDim dshape.h p.kh p.sh p.ph
  let ow := poolOutDim dshape.w p.kw p.sw p.pw
  [⟨dshape.n, dshape.c, oh, ow⟩, ⟨dshape.n, dshape.c, oh, ow⟩]

/-- The spec's §4.1 output-dimension formula, written from the spec's words:
`out_dim = min(in_dim + 2*pad - kernel + stride - 1, in_dim + 2*pad - 1) /
stride + 1` with integer division. -/
def specOutDim (inDim kernel stride pad : Nat) : Nat :=
  min (inDim + 2 * pad - kernel + stride - 1) (inDim + 2 * pad - 1) / stride + 1

/-- The derived unpooling output dimension of `MaxUnpoolingProp::InferShape`
(max_unpooling-inl.h lines 181-182): `(in - 1) * stride + kernel - 2*pad`. -/
def unpoolDerivedDim (inDim kernel stride pad : Nat) : Nat :=
  (inDim - 1) * stride + kernel - 2 * pad

/-- `MaxUnpoolingProp::InferShape` (max_unpooling-inl.h lines 162-192) on
the first input shape: when either `unpool_size` component is zero
("non-positive" on the unsigned `index_t`) both spatial output dims are
derived from the formula; otherwise `unpool_size` is used as given.  The
positivity CHECK on line 188 aborts the call, modelled as `none`. -/
def maxUnpoolingInferShape (u : MaxUnpoolingParam) (dshape : TShape4) : Option TShape4 :=
  let oshape : TShape4 :=
    if u.unpoolH = 0 ∨ u.unpoolW = 0 then
      ⟨dshape.n, dshape.c, unpoolDerivedDim dshape.h u.kh u.sh u.ph,
        unpoolDerivedDim dshape.w u.kw u.sw u.pw⟩
    else
      ⟨dshape.n, dshape.c, u.unpoolH, u.unpoolW⟩
  if 0 < oshape.h ∧ 0 < oshape.w then some oshape else none

/-- Sum of a 4-D tensor over the box `[0,B)×[0,C)×[0,H)×[0,W)`. -/
def sum4 (B C H W : Nat) (t : Tensor4) : Int :=
  ∑ b ∈ Finset.range B, ∑ c ∈ Finset.range C,
    ∑ r ∈ Finset.range H, ∑ cc ∈ Finset.range W, t b c r cc

lemma le_foldl_max : ∀ (l : List Int) (a : Int), a ≤ l.foldl max a := by
  intro l
  induction l with
  | nil => intro a; exact le_refl a
  | cons x xs ih =>
    intro a
    exact le_trans (le_max_left a x) (ih (max a x))

lemma mem_le_foldl_max : ∀ (l : List Int) (a v : Int), v ∈ l → v ≤ l.foldl max a := by
  intro l
  induction l with
  | nil => intro a v hv; cases hv
  | cons x xs ih =>
    intro a v hv
    rcases List.mem_cons.1 hv with h | h
    · subst h
      exact le_trans (le_max_right a v) (le_foldl_max xs (max a v))
    · exact ih (max a x) v h

lemma foldl_max_mem : ∀ (l : List Int) (a : Int), l.foldl max a = a ∨ l.foldl max a ∈ l := by
  intro l
  induction l with
  | nil => intro a; exact Or.inl rfl
  | cons x xs ih =>
    intro a
    rcases ih (max a x) with h | h
    · rcases max_choice a x with hm | hm
      · exact Or.inl (by rw [List.foldl_cons, h, hm])
      · exact Or.inr (by rw [List.foldl_cons, h, hm]; exact List.mem_cons_self x xs)
    · exact Or.inr (List.mem_cons_of_mem x h)

lemma listMax_mem (l : List Int) (h : l ≠ []) : listMax l ∈ l := by
  cases l with
  | nil => exact absurd rfl h
  | cons a t =>
    rcases foldl_max_mem t a with h' | h'
    · rw [listMax, h']; exact List.mem_cons_self a t
    · exact List.mem_cons_of_mem a h'

lemma le_listMax (l : List Int) (v : Int) (h : v ∈ l) : v ≤ listMax l := by
  cases l with
  | nil => cases h
  | cons a t =>
    rcases List.mem_cons.1 h with h' | h'
    · subst h'; exact le_foldl_max t v
    · exact mem_le_foldl_max t a v h'

lemma windowList_length (H W : Nat) (x : Plane) (ph pw kh kw sh sw i j : Nat) :
    (windowList H W x ph pw kh kw sh sw i j).length = kh * kw := by
  simp [windowList]

lemma windowList_getElem (H W : Nat) (x : Plane) (ph pw kh kw sh sw i j t : Nat)
    (ht : t < (windowList H W x ph pw kh kw sh sw i j).length) :
    (windowList H W x ph pw kh kw sh sw i j)[t] = winVal H W x ph pw kw sh sw i j t := by
  simp [windowList]

lemma maskOff_lt (H W : Nat) (x : Plane) (ph pw kh kw sh sw i j : Nat)
    (hkh : 0 < kh) (hkw : 0 < kw) :
    maskOff H W x ph pw kh kw sh sw i j < kh * kw := by
  have hne : windowList H W x ph pw kh kw sh sw i j ≠ [] := by
    have : 0 < (windowList H W x ph pw kh kw sh sw i j).length := by
      rw [windowList_length]; exact Nat.mul_pos hkh hkw
    exact List.ne_nil_of_length_pos this
  have := List.indexOf_lt_length.2 (listMax_mem _ hne)
  rwa [windowList_length] at this

lemma winVal_maskOff (H W : Nat) (x : Plane) (ph pw kh kw sh sw i j : Nat)
    (hkh : 0 < kh) (hkw : 0 < kw) :
    winVal H W x ph pw kw sh sw i j (maskOff H W x ph pw kh kw sh sw i j) =
      listMax (windowList H W x ph pw kh kw sh sw i j) := by
  have hlt : List.indexOf (listMax (windowList H W x ph pw kh kw sh sw i j))
      (windowList H W x ph pw kh kw sh sw i j) <
      (windowList H W x ph pw kh kw sh sw i j).length := by
    rw [windowList_length]
    exact maskOff_lt H W x ph pw kh kw sh sw i j hkh hkw
  unfold maskOff
  rw [← windowList_getElem H W x ph pw kh kw sh sw i j _ hlt]
  exact List.getElem_indexOf hlt

lemma winVal_le_listMax (H W : Nat) (x : Plane) (ph pw kh kw sh sw i j t : Nat)
    (ht : t < kh * kw) :
    winVal H W x ph pw kw sh sw i j t ≤
      listMax (windowList H W x ph pw kh kw sh sw i j) := by
  apply le_listMax
  rw [← windowList_getElem H W x ph pw kh kw sh sw i j t
    (by rw [windowList_length]; exact ht)]
  exact List.getElem_mem _

lemma winVal_ne_of_lt_maskOff (H W : Nat) (x : Plane) (ph pw kh kw sh sw i j t : Nat)
    (ht : t < maskOff H W x ph pw kh kw sh sw i j) :
    winVal H W x ph pw kw sh sw i j t ≠
      listMax (windowList H W x ph pw kh kw sh sw i j) := by
  have hlen : t < (windowList H W x ph pw kh kw sh sw i j).length :=
    lt_of_lt_of_le ht (List.indexOf_le_length)
  have hfind : t < (windowList H W x ph pw kh kw sh sw i j).findIdx
      (· == listMax (windowList H W x ph pw kh kw sh sw i j)) := by
    simpa [List.indexOf] using ht
  have := List.not_of_lt_findIdx hfind
  rw [windowList_getElem H W x ph pw kh kw sh sw i j t hlen] at this
  simpa using this

lemma mem_cells {outH outW : Nat} {ij : Nat × Nat} :
    ij ∈ cells outH outW ↔ ij.1 < outH ∧ ij.2 < outW := by
  obtain ⟨i, j⟩ := ij
  simp [cells, List.mem_flatMap, List.mem_map, List.mem_range, eq_comm]

lemma foldl_scatter_stay (f : Nat × Nat → Nat × Nat) (pos : Nat × Nat)
    (d : Nat × Nat → Int) (v : Int) :
    ∀ l : List (Nat × Nat), (∀ ij ∈ l, f ij = pos → d ij = v) →
      l.foldl (fun acc ij => if f ij = pos then d ij else acc) v = v := by
  intro l
  induction l with
  | nil => intro _; rfl
  | cons x xs ih =>
    intro h
    rw [List.foldl_cons]
    by_cases hx : f x = pos
    · rw [if_pos hx, h x (List.mem_cons_self x xs) hx]
      exact ih fun ij hij => h ij (List.mem_cons_of_mem x hij)
    · rw [if_neg hx]
      exact ih fun ij hij => h ij (List.mem_cons_of_mem x hij)

lemma foldl_scatter_of_forall_not (f : Nat × Nat → Nat × Nat) (pos : Nat × Nat)
    (d : Nat × Nat → Int) :
    ∀ (l : List (Nat × Nat)) (a : Int), (∀ ij ∈ l, f ij ≠ pos) →
      l.foldl (fun acc ij => if f ij = pos then d ij else acc) a = a := by
  intro l
  induction l with
  | nil => intro a _; rfl
  | cons x xs ih =>
    intro a h
    rw [List.foldl_cons, if_neg (h x (List.mem_cons_self x xs))]
    exact ih a fun ij hij => h ij (List.mem_cons_of_mem x hij)

lemma foldl_scatter_of_mem (f : Nat × Nat → Nat × Nat) (pos : Nat × Nat)
    (d : Nat × Nat → Int) (v : Int) :
    ∀ (l : List (Nat × Nat)) (a : Int), (∀ ij ∈ l, f ij = pos → d ij = v) →
      (∃ ij ∈ l, f ij = pos) →
      l.foldl (fun acc ij => if f ij = pos then d ij else acc) a = v := by
  intro l
  induction l with
  | nil => rintro a _ ⟨ij, hij, -⟩; cases hij
  | cons x xs ih =>
    rintro a h ⟨ij, hij, hfij⟩
    rw [List.foldl_cons]
    by_cases hx : f x = pos
    · rw [if_pos hx, h x (List.mem_cons_self x xs) hx]
      exact foldl_scatter_stay f pos d v xs fun ij hij => h ij (List.mem_cons_of_mem x hij)
    · rw [if_neg hx]
      rcases List.mem_cons.1 hij with h' | h'
      · exact absurd (h' ▸ hfij) hx
      · exact ih a (fun ij hij => h ij (List.mem_cons_of_mem x hij)) ⟨ij, h', hfij⟩

lemma foldl_scatter_of_forall_not_accum (f : Nat × Nat → Nat × Nat) (pos : Nat × Nat)
    (g : Nat × Nat → Int) :
    ∀ (l : List (Nat × Nat)) (a : Int), (∀ ij ∈ l, f ij ≠ pos) →
      l.foldl (fun acc ij => if f ij = pos then acc + g ij else acc) a = a := by
  intro l
  induction l with
  | nil => intro a _; rfl
  | cons x xs ih =>
    intro a h
    rw [List.foldl_cons, if_neg (h x (List.mem_cons_self x xs))]
    exact ih a fun ij hij => h ij (List.mem_cons_of_mem x hij)

lemma foldl_accum_eq_sum (f : Nat × Nat → Nat × Nat) (pos : Nat × Nat)
    (g : Nat × Nat → Int) :
    ∀ (l : List (Nat × Nat)) (a : Int),
      l.foldl (fun acc ij => if f ij = pos then acc + g ij else acc) a
        = a + (l.map fun ij => if f ij = pos then g ij else 0).sum := by
  intro l
  induction l with
  | nil => intro a; simp
  | cons x xs ih =>
    intro a
    rw [List.foldl_cons, List.map_cons, List.sum_cons, ih]
    by_cases hx : f x = pos
    · rw [if_pos hx, if_pos hx]; ring
    · rw [if_neg hx, if_neg hx]; ring

lemma foldl_accum_eq_filter_sum (f : Nat × Nat → Nat × Nat) (pos : Nat × Nat)
    (g : Nat × Nat → Int) :
    ∀ (l : List (Nat × Nat)) (a : Int),
      l.foldl (fun acc ij => if f ij = pos then acc + g ij else acc) a
        = a + ((l.filter fun ij => decide (f ij = pos)).map g).sum := by
  intro l
  induction l with
  | nil => intro a; simp
  | cons x xs ih =>
    intro a
    rw [List.foldl_cons, List.filter_cons]
    by_cases hx : f x = pos
    · simp only [hx, if_pos, decide_eq_true_eq, if_true, List.map_cons, List.sum_cons, ih]
      ring
    · simp only [if_neg hx, ih, decide_eq_true_eq]

lemma sum_map_range (g : Nat → Int) :
    ∀ n : Nat, ((List.range n).map g).sum = ∑ i ∈ Finset.range n, g i := by
  intro n
  induction n with
  | zero => simp
  | succ n ih =>
    rw [List.range_succ, List.map_append, List.sum_append, Finset.sum_range_succ, ih]
    simp

lemma sum_map_cells (outH outW : Nat) (F : Nat × Nat → Int) :
    ((cells outH outW).map F).sum
      = ∑ i ∈ Finset.range outH, ∑ j ∈ Finset.range outW, F (i, j) := by
  induction outH with
  | zero => simp [cells]
  | succ n ih =>
    rw [cells, List.range_succ, List.flatMap_append, List.map_append, List.sum_append,
      Finset.sum_range_succ, ← cells, ih]
    congr 1
    rw [List.flatMap_cons, List.flatMap_nil, List.append_nil, List.map_map]
    exact sum_map_range _ outW

lemma sum_box_ite (H W : Nat) (q : Nat × Nat) (v : Int) (h1 : q.1 < H) (h2 : q.2 < W) :
    (∑ r ∈ Finset.range H, ∑ c ∈ Finset.range W, if q = (r, c) then v else 0) = v := by
  rw [Finset.sum_eq_single q.1]
  · rw [Finset.sum_eq_single q.2]
    · simp
    · intro b _ hb
      rw [if_neg]
      intro h
      exact hb (congrArg Prod.snd h).symm
    · intro h
      exact absurd (Finset.mem_range.2 h2) h
  · intro b _ hb
    apply Finset.sum_eq_zero
    intro c _
    rw [if_neg]
    intro h
    exact hb (congrArg Prod.fst h).symm
  · intro h
    exact absurd (Finset.mem_range.2 h1) h

lemma poolOutDim_tile (H s : Nat) (hs : 0 < s) (hd : s ∣ H) (hH : 0 < H) :
    poolOutDim H s s 0 = H / s := by
  obtain ⟨m, rfl⟩ := hd
  have hm : 0 < m := by
    rcases Nat.eq_zero_or_pos m with h | h
    · subst h; simp at hH
    · exact h
  obtain ⟨m', rfl⟩ : ∃ m', m = m' + 1 := ⟨m - 1, by omega⟩
  have hsm : s * (m' + 1) = s * m' + s := by ring
  have h1 : s * (m' + 1) + 2 * 0 - s + s - 1 = s * m' + (s - 1) := by
    rw [hsm]; generalize s * m' = A; omega
  have h2 : s * (m' + 1) + 2 * 0 - 1 = s * m' + (s - 1) := by
    rw [hsm]; generalize s * m' = A; omega
  rw [poolOutDim, h1, h2, min_self, Nat.mul_add_div hs, Nat.div_eq_of_lt (by omega),
    Nat.mul_div_cancel_left _ hs]

lemma unpool_pool_dim_inverse (h k s pd : Nat) (hs : 0 < s) (hk : 0 < k)
    (hfit : k ≤ h + 2 * pd) (hdvd : s ∣ (h + 2 * pd - k)) :
    unpoolDerivedDim (poolOutDim h k s pd) k s pd = h := by
  obtain ⟨m, hm⟩ := hdvd
  have h1 : h + 2 * pd - k + s - 1 = s * m + (s - 1) := by
    generalize hA : s * m = A at hm
    omega
  have h2 : h + 2 * pd - 1 = s * m + (k - 1) := by
    generalize hA : s * m = A at hm
    omega
  have h3 : poolOutDim h k s pd = m + 1 := by
    rcases Nat.le_total s k with hsk | hks
    · have hmin : min (s * m + (s - 1)) (s * m + (k - 1)) = s * m + (s - 1) :=
        min_eq_left (by omega)
      rw [poolOutDim, h1, h2, hmin, Nat.mul_add_div hs, Nat.div_eq_of_lt (by omega)]
    · have hmin : min (s * m + (s - 1)) (s * m + (k - 1)) = s * m + (k - 1) :=
        min_eq_right (by omega)
      rw [poolOutDim, h1, h2, hmin, Nat.mul_add_div hs, Nat.div_eq_of_lt (by omega)]
  rw [h3, unpoolDerivedDim, Nat.add_sub_cancel]
  have h4 : m * s = h + 2 * pd - k := by rw [Nat.mul_comm]; exact hm.symm
  generalize hA : m * s = A at h4
  omega

/-- C2: for every 4-D input shape and valid window configuration,
`MaxPoolingMaskProp::InferShape` returns two outputs (pooled and mask) whose
spatial dimensions both equal
`min(in_dim + 2*pad - kernel + stride - 1, in_dim + 2*pad - 1) / stride + 1`
(integer division), applied independently to height and width, with the
batch and channel dimensions unchanged. -/
theorem pool_infershape_matches_spec_formula (p : WindowConfig) (d : TShape4)
    (hkh : 0 < p.kh) (hkw : 0 < p.kw) (hsh : 0 < p.sh) (hseq : p.sh = p.sw)
    (hfit_h : p.kh ≤ d.h + 2 * p.ph) (hfit_w : p.kw ≤ d.w + 2 * p.pw) :
    maxPoolingMaskInferShape p d =
      [⟨d.n, d.c, specOutDim d.h p.kh p.sh p.ph, specOutDim d.w p.kw p.sw p.pw⟩,
       ⟨d.n, d.c, specOutDim d.h p.kh p.sh p.ph, specOutDim d.w p.kw p.sw p.pw⟩] := rfl

/-- Witness for C2 at kernel (2,2), stride (2,2), pad (0,0) on a 1×3×4×4
input. -/
theorem pool_infershape_matches_spec_formula_check :
    maxPoolingMaskInferShape ⟨2, 2, 2, 2, 0, 0⟩ ⟨1, 3, 4, 4⟩ =
      [⟨1, 3, specOutDim 4 2 2 0, specOutDim 4 2 2 0⟩,
       ⟨1, 3, specOutDim 4 2 2 0, specOutDim 4 2 2 0⟩] :=
  pool_infershape_matches_spec_formula ⟨2, 2, 2, 2, 0, 0⟩ ⟨1, 3, 4, 4⟩ (by decide)
    (by decide) (by decide) rfl (by decide) (by decide)

/-- C7: for every configuration, mask, upstream gradient and coordinate,
`MaxUnpoolingOp::Backward`'s gradient with respect to the mask input is
zero. -/
theorem unpool_backward_mask_grad_zero (u : MaxUnpoolingParam) (mask : MaskTensor4)
    (grad : Tensor4) (b c i j : Nat) :
    (MaxUnpoolingOp.backward u mask grad).2 b c i j = 0 := rfl

/-- C4 counterexample: with kernel (2,2), stride (2,2), pad (0,0) and input
height/width 5, pooling shape inference yields 3, and the unpooling derived
shape of 3 is 6, not the original 5 — the two formulas are not algebraic
inverses in general. -/
theorem shape_roundtrip_fails :
    maxPoolingMaskInferShape ⟨2, 2, 2, 2, 0, 0⟩ ⟨1, 1, 5, 5⟩ =
      [⟨1, 1, 3, 3⟩, ⟨1, 1, 3, 3⟩] ∧
    maxUnpoolingInferShape ⟨2, 2, 2, 2, 0, 0, 0, 0⟩ ⟨1, 1, 3, 3⟩ = some ⟨1, 1, 6, 6⟩ ∧
    maxUnpoolingInferShape ⟨2, 2, 2, 2, 0, 0, 0, 0⟩ ⟨1, 1, 3, 3⟩ ≠ some ⟨1, 1, 5, 5⟩ := by
  decide

/-- C4 amended: when `unpool_size` is unset and, on each spatial axis, the
kernel fits (`kernel ≤ in_dim + 2*pad`) and the stride divides
`in_dim + 2*pad - kernel`, applying the pooling output-shape formula and
then the unpooling derived-shape formula returns the original input shape. -/
theorem shape_roundtrip_inverse (u : MaxUnpoolingParam) (d : TShape4)
    (hu1 : u.unpoolH = 0)
    (hsh : 0 < u.sh) (hsw : 0 < u.sw)
    (hkh0 : 0 < u.kh) (hkw0 : 0 < u.kw)
    (hkh : u.kh ≤ d.h + 2 * u.ph) (hkw : u.kw ≤ d.w + 2 * u.pw)
    (hdh : u.sh ∣ (d.h + 2 * u.ph - u.kh)) (hdw : u.sw ∣ (d.w + 2 * u.pw - u.kw))
    (hH : 0 < d.h) (hW : 0 < d.w) :
    maxPoolingMaskInferShape u.toWindow d =
      [⟨d.n, d.c, poolOutDim d.h u.kh u.sh u.ph, poolOutDim d.w u.kw u.sw u.pw⟩,
       ⟨d.n, d.c, poolOutDim d.h u.kh u.sh u.ph, poolOutDim d.w u.kw u.sw u.pw⟩] ∧
    maxUnpoolingInferShape u
      ⟨d.n, d.c, poolOutDim d.h u.kh u.sh u.ph, poolOutDim d.w u.kw u.sw u.pw⟩
      = some d := by
  refine ⟨rfl, ?_⟩
  have e1 := unpool_pool_dim_inverse d.h u.kh u.sh u.ph hsh hkh0 hkh hdh
  have e2 := unpool_pool_dim_inverse d.w u.kw u.sw u.pw hsw hkw0 hkw hdw
  simp only [maxUnpoolingInferShape, hu1, true_or, if_true, eq_self_iff_true]
  rw [e1, e2, if_pos ⟨hH, hW⟩]

/-- Witness for C4's amended claim, once with kernel (2,2), stride (2,2),
pad (0,0), input 4 (round trip 4 → 2 → 4), and once with stride exceeding
the kernel: kernel (1,1), stride (3,3), pad (0,0), input 7 (round trip
7 → 3 → 7). -/
theorem shape_roundtrip_inverse_check :
    (maxPoolingMaskInferShape (MaxUnpoolingParam.toWindow ⟨2, 2, 2, 2, 0, 0, 0, 0⟩)
        ⟨1, 1, 4, 4⟩ =
      [⟨1, 1, poolOutDim 4 2 2 0, poolOutDim 4 2 2 0⟩,
       ⟨1, 1, poolOutDim 4 2 2 0, poolOutDim 4 2 2 0⟩] ∧
    maxUnpoolingInferShape ⟨2, 2, 2, 2, 0, 0, 0, 0⟩
        ⟨1, 1, poolOutDim 4 2 2 0, poolOutDim 4 2 2 0⟩ = some ⟨1, 1, 4, 4⟩) ∧
    (maxPoolingMaskInferShape (MaxUnpoolingParam.toWindow ⟨1, 1, 3, 3, 0, 0, 0, 0⟩)
        ⟨1, 1, 7, 7⟩ =
      [⟨1, 1, poolOutDim 7 1 3 0, poolOutDim 7 1 3 0⟩,
       ⟨1, 1, poolOutDim 7 1 3 0, poolOutDim 7 1 3 0⟩] ∧
    maxUnpoolingInferShape ⟨1, 1, 3, 3, 0, 0, 0, 0⟩
        ⟨1, 1, poolOutDim 7 1 3 0, poolOutDim 7 1 3 0⟩ = some ⟨1, 1, 7, 7⟩) :=
  ⟨shape_roundtrip_inverse ⟨2, 2, 2, 2, 0, 0, 0, 0⟩ ⟨1, 1, 4, 4⟩ rfl (by decide)
      (by decide) (by decide) (by decide) (by decide) (by decide) (by decide)
      (by decide) (by decide) (by decide),
   shape_roundtrip_inverse ⟨1, 1, 3, 3, 0, 0, 0, 0⟩ ⟨1, 1, 7, 7⟩ rfl (by decide)
      (by decide) (by decide) (by decide) (by decide) (by decide) (by decide)
      (by decide) (by decide) (by decide)⟩

/-- C8 counterexample: a non-zero pad (1,1) unpooling configuration passes
`MaxUnpoolingProp::InferShape` (no configuration error is raised there), and
is only rejected by the CHECK inside `MaxUnpoolingOp::Forward`. -/
theorem unpool_nonzero_pad_passes_infershape :
    maxUnpoolingInferShape ⟨2, 2, 2, 2, 1, 1, 0, 0⟩ ⟨1, 1, 2, 2⟩ = some ⟨1, 1, 2, 2⟩ ∧
    (MaxUnpoolingOp.forward ⟨2, 2, 2, 2, 1, 1, 0, 0⟩ 1 1 (fun _ _ _ _ => 0)
      (fun _ _ _ _ => 0)).isNone = true := by
  decide

/-- C8 amended: a non-zero pad configuration passed to the Unpooling
operator is accepted by shape inference (which validates only output
positivity) and is reported as a configuration error by the Forward
engine's precondition check, before the output tensor is computed. -/
theorem unpool_forward_rejects_nonzero_pad (u : MaxUnpoolingParam)
    (poolH poolW : Nat) (data : Tensor4) (mask : MaskTensor4)
    (hpad : u.ph ≠ 0 ∨ u.pw ≠ 0) :
    MaxUnpoolingOp.forward u poolH poolW data mask = none := by
  rw [MaxUnpoolingOp.forward, if_neg]
  rintro ⟨-, h1, h2⟩
  rcases hpad with h | h
  · exact h h1
  · exact h h2

/-- Witness for C8's amended claim at pad (1,1). -/
theorem unpool_forward_rejects_nonzero_pad_check :
    MaxUnpoolingOp.forward ⟨2, 2, 2, 2, 1, 1, 0, 0⟩ 1 1 (fun _ _ _ _ => 0)
      (fun _ _ _ _ => 0) = none :=
  unpool_forward_rejects_nonzero_pad ⟨2, 2, 2, 2, 1, 1, 0, 0⟩ 1 1 _ _
    (Or.inl (by decide))

/-- C10: in `MaxUnpoolingProp::InferShape`, if either `unpool_size`
component is non-positive (zero on the unsigned index type) then both
spatial output dimensions come from the derived formula
`(in - 1) * stride + kernel - 2*pad`, ignoring the other component; the
given `unpool_size` is used only when both components are positive, with no
cross-check against the pooling-inverse formula beyond positivity. -/
theorem unpool_infershape_unpool_size_handling (u : MaxUnpoolingParam) (d : TShape4) :
    ((u.unpoolH = 0 ∨ u.unpoolW = 0) →
      0 < unpoolDerivedDim d.h u.kh u.sh u.ph →
      0 < unpoolDerivedDim d.w u.kw u.sw u.pw →
      maxUnpoolingInferShape u d =
        some ⟨d.n, d.c, unpoolDerivedDim d.h u.kh u.sh u.ph,
          unpoolDerivedDim d.w u.kw u.sw u.pw⟩) ∧
    (0 < u.unpoolH → 0 < u.unpoolW →
      maxUnpoolingInferShape u d = some ⟨d.n, d.c, u.unpoolH, u.unpoolW⟩) := by
  constructor
  · intro h hh hw
    simp only [maxUnpoolingInferShape, if_pos h]
    rw [if_pos ⟨hh, hw⟩]
  · intro hh hw
    have hne : ¬(u.unpoolH = 0 ∨ u.unpoolW = 0) := by omega
    simp only [maxUnpoolingInferShape, if_neg hne]
    rw [if_pos ⟨hh, hw⟩]

/-- Witness for C10: with `unpool_size = (0, 7)` both output dims are
derived (the positive 7 is ignored); with `unpool_size = (9, 7)` the given
size is used verbatim, uncross-checked. -/
theorem unpool_infershape_unpool_size_handling_check :
    maxUnpoolingInferShape ⟨2, 2, 2, 2, 0, 0, 0, 7⟩ ⟨1, 1, 3, 3⟩ =
      some ⟨1, 1, 6, 6⟩ ∧
    maxUnpoolingInferShape ⟨2, 2, 2, 2, 0, 0, 9, 7⟩ ⟨1, 1, 3, 3⟩ =
      some ⟨1, 1, 9, 7⟩ :=
  ⟨(unpool_infershape_unpool_size_handling ⟨2, 2, 2, 2, 0, 0, 0, 7⟩ ⟨1, 1, 3, 3⟩).1
      (Or.inl rfl) (by decide) (by decide),
   (unpool_infershape_unpool_size_handling ⟨2, 2, 2, 2, 0, 0, 9, 7⟩ ⟨1, 1, 3, 3⟩).2
      (by decide) (by decide)⟩

/-- C9: on the single-channel 4×4 input 1..16 with kernel (2,2), stride
(2,2), pad (0,0), Pooling-Forward gives pooled = [[6,8],[14,16]], every
mask entry is the flattened offset 3, i.e. the bottom-right in-window
position (each cell (i,j) names input position (2i+1, 2j+1)); and
Pooling-Backward on an upstream gradient that is 1 at pooled position (1,1)
and 0 elsewhere yields the gradient that is 1 at input position (3,3) and 0
elsewhere. -/
theorem concrete_scenario_pool_and_backward :
    (∀ i, i < 2 → ∀ j, j < 2 →
      MaxPoolingMaskOp.forwardOut ⟨2, 2, 2, 2, 0, 0⟩ 4 4
          (fun _ _ r c => 4 * (r : Int) + c + 1) 0 0 i j = 8 * i + 2 * j + 6 ∧
      MaxPoolingMaskOp.forwardMask ⟨2, 2, 2, 2, 0, 0⟩ 4 4
          (fun _ _ r c => 4 * (r : Int) + c + 1) 0 0 i j = 3 ∧
      namedPos 2 2 2 i j 3 = (2 * i + 1, 2 * j + 1)) ∧
    (∀ r, r < 4 → ∀ c, c < 4 →
      MaxPoolingMaskOp.backward ⟨2, 2, 2, 2, 0, 0⟩ 4 4 2 2
          (fun _ _ r c => 4 * (r : Int) + c + 1)
          (fun _ _ i j => if i = 1 ∧ j = 1 then 1 else 0) 0 0 r c
        = if r = 3 ∧ c = 3 then 1 else 0) := by
  decide

/-- Witness for C9 at pooled cell (1,1) and input position (3,3). -/
theorem concrete_scenario_pool_and_backward_check :
    MaxPoolingMaskOp.forwardOut ⟨2, 2, 2, 2, 0, 0⟩ 4 4
        (fun _ _ r c => 4 * (r : Int) + c + 1) 0 0 1 1 = 8 * 1 + 2 * 1 + 6 ∧
    MaxPoolingMaskOp.backward ⟨2, 2, 2, 2, 0, 0⟩ 4 4 2 2
        (fun _ _ r c => 4 * (r : Int) + c + 1)
        (fun _ _ i j => if i = 1 ∧ j = 1 then 1 else 0) 0 0 3 3
      = if 3 = 3 ∧ 3 = 3 then 1 else 0 :=
  ⟨(concrete_scenario_pool_and_backward.1 1 (by decide) 1 (by decide)).1,
   concrete_scenario_pool_and_backward.2 3 (by decide) 3 (by decide)⟩

/-- C1: for every 4-D input tensor, every valid window configuration and
every output coordinate (b,c,i,j): the pooled value written by
Pooling-Forward equals the zero-padded input value at the window position
named by the mask entry, that value is the window's maximum, and the named
position is the first position in row-major scan order of the window
attaining it. -/
theorem pool_forward_argmax_fidelity (p : WindowConfig) (H W : Nat) (x : Tensor4)
    (b c i j : Nat) (hkh : 0 < p.kh) (hkw : 0 < p.kw) (hs : p.sh = p.sw) :
    MaxPoolingMaskOp.forwardMask p H W x b c i j < p.kh * p.kw ∧
    MaxPoolingMaskOp.forwardOut p H W x b c i j =
      paddedVal H W (x b c) p.ph p.pw
        (namedPos p.kw p.sh p.sh i j (MaxPoolingMaskOp.forwardMask p H W x b c i j)).1
        (namedPos p.kw p.sh p.sh i j (MaxPoolingMaskOp.forwardMask p H W x b c i j)).2 ∧
    (∀ t, t < p.kh * p.kw →
      winVal H W (x b c) p.ph p.pw p.kw p.sh p.sh i j t ≤
        MaxPoolingMaskOp.forwardOut p H W x b c i j) ∧
    (∀ t, t < MaxPoolingMaskOp.forwardMask p H W x b c i j →
      winVal H W (x b c) p.ph p.pw p.kw p.sh p.sh i j t ≠
        MaxPoolingMaskOp.forwardOut p H W x b c i j) := by
  obtain ⟨kh, kw, sh, sw, ph, pw⟩ := p
  dsimp only at *
  subst hs
  refine ⟨maskOff_lt H W (x b c) ph pw kh kw sh sh i j hkh hkw,
    (winVal_maskOff H W (x b c) ph pw kh kw sh sh i j hkh hkw).symm,
    fun t ht => winVal_le_listMax H W (x b c) ph pw kh kw sh sh i j t ht,
    fun t ht => winVal_ne_of_lt_maskOff H W (x b c) ph pw kh kw sh sh i j t ht⟩

/-- Witness for C1 on the 4×4 input 1..16 with kernel (2,2), stride (2,2),
pad (0,0) at output cell (1,1). -/
theorem pool_forward_argmax_fidelity_check :
    MaxPoolingMaskOp.forwardMask ⟨2, 2, 2, 2, 0, 0⟩ 4 4
        (fun _ _ r c => 4 * (r : Int) + c + 1) 0 0 1 1 < 2 * 2 ∧
    MaxPoolingMaskOp.forwardOut ⟨2, 2, 2, 2, 0, 0⟩ 4 4
        (fun _ _ r c => 4 * (r : Int) + c + 1) 0 0 1 1 =
      paddedVal 4 4 ((fun _ _ r c => 4 * (r : Int) + c + 1 : Tensor4) 0 0) 0 0
        (namedPos 2 2 2 1 1 (MaxPoolingMaskOp.forwardMask ⟨2, 2, 2, 2, 0, 0⟩ 4 4
          (fun _ _ r c => 4 * (r : Int) + c + 1) 0 0 1 1)).1
        (namedPos 2 2 2 1 1 (MaxPoolingMaskOp.forwardMask ⟨2, 2, 2, 2, 0, 0⟩ 4 4
          (fun _ _ r c => 4 * (r : Int) + c + 1) 0 0 1 1)).2 ∧
    (∀ t, t < 2 * 2 →
      winVal 4 4 ((fun _ _ r c => 4 * (r : Int) + c + 1 : Tensor4) 0 0) 0 0 2 2 2 1 1 t ≤
        MaxPoolingMaskOp.forwardOut ⟨2, 2, 2, 2, 0, 0⟩ 4 4
          (fun _ _ r c => 4 * (r : Int) + c + 1) 0 0 1 1) ∧
    (∀ t, t < MaxPoolingMaskOp.forwardMask ⟨2, 2, 2, 2, 0, 0⟩ 4 4
        (fun _ _ r c => 4 * (r : Int) + c + 1) 0 0 1 1 →
      winVal 4 4 ((fun _ _ r c => 4 * (r : Int) + c + 1 : Tensor4) 0 0) 0 0 2 2 2 1 1 t ≠
        MaxPoolingMaskOp.forwardOut ⟨2, 2, 2, 2, 0, 0⟩ 4 4
          (fun _ _ r c => 4 * (r : Int) + c + 1) 0 0 1 1) :=
  pool_forward_argmax_fidelity ⟨2, 2, 2, 2, 0, 0⟩ 4 4
    (fun _ _ r c => 4 * (r : Int) + c + 1) 0 0 1 1 (by decide) (by decide) rfl

/-- C3: Pooling-Backward adds each output cell's upstream gradient entirely
to the single input position named by that cell's maximum location, with
the same row-major-first tie-breaking as the forward mask; output cells
naming the same input position have their gradients summed, and input
positions named by no cell receive gradient zero. -/
theorem pool_backward_scatter_add (p : WindowConfig) (H W outH outW : Nat)
    (x dPooled : Tensor4) (b c r cc : Nat) (hs : p.sh = p.sw) :
    (∀ i j, maskOff H W (x b c) p.ph p.pw p.kh p.kw p.sh p.sw i j =
      MaxPoolingMaskOp.forwardMask p H W x b c i j) ∧
    MaxPoolingMaskOp.backward p H W outH outW x dPooled b c r cc =
      (((cells outH outW).filter fun ij =>
          decide (namedPos p.kw p.sh p.sw ij.1 ij.2
            (MaxPoolingMaskOp.forwardMask p H W x b c ij.1 ij.2) =
              (r + p.ph, cc + p.pw))).map
        fun ij => dPooled b c ij.1 ij.2).sum ∧
    ((∀ i j, i < outH → j < outW →
        namedPos p.kw p.sh p.sw i j (MaxPoolingMaskOp.forwardMask p H W x b c i j)
          ≠ (r + p.ph, cc + p.pw)) →
      MaxPoolingMaskOp.backward p H W outH outW x dPooled b c r cc = 0) := by
  obtain ⟨kh, kw, sh, sw, ph, pw⟩ := p
  dsimp only at *
  subst hs
  refine ⟨fun i j => rfl, ?_, ?_⟩
  · have h := foldl_accum_eq_filter_sum
      (fun ij => namedPos kw sh sh ij.1 ij.2
        (maskOff H W (x b c) ph pw kh kw sh sh ij.1 ij.2))
      (r + ph, cc + pw) (fun ij => dPooled b c ij.1 ij.2) (cells outH outW) 0
    simpa [MaxPoolingMaskOp.backward, poolBackwardPlane] using h
  · intro hnone
    show (cells outH outW).foldl _ 0 = 0
    apply foldl_scatter_of_forall_not_accum
    intro ij hij
    have hm := mem_cells.1 hij
    exact hnone ij.1 ij.2 hm.1 hm.2

/-- Witness for C3 on the 4×4 input 1..16 with kernel (2,2), stride (2,2),
pad (0,0), unit upstream gradient, at input position (3,3). -/
theorem pool_backward_scatter_add_check :
    (∀ i j, maskOff 4 4 ((fun _ _ r c => 4 * (r : Int) + c + 1 : Tensor4) 0 0)
        0 0 2 2 2 2 i j =
      MaxPoolingMaskOp.forwardMask ⟨2, 2, 2, 2, 0, 0⟩ 4 4
        (fun _ _ r c => 4 * (r : Int) + c + 1) 0 0 i j) ∧
    MaxPoolingMaskOp.backward ⟨2, 2, 2, 2, 0, 0⟩ 4 4 2 2
        (fun _ _ r c => 4 * (r : Int) + c + 1) (fun _ _ _ _ => 1) 0 0 3 3 =
      (((cells 2 2).filter fun ij =>
          decide (namedPos 2 2 2 ij.1 ij.2
            (MaxPoolingMaskOp.forwardMask ⟨2, 2, 2, 2, 0, 0⟩ 4 4
              (fun _ _ r c => 4 * (r : Int) + c + 1) 0 0 ij.1 ij.2) =
              (3 + 0, 3 + 0))).map
        fun ij => (fun _ _ _ _ => (1 : Int) : Tensor4) 0 0 ij.1 ij.2).sum ∧
    ((∀ i j, i < 2 → j < 2 →
        namedPos 2 2 2 i j (MaxPoolingMaskOp.forwardMask ⟨2, 2, 2, 2, 0, 0⟩ 4 4
          (fun _ _ r c => 4 * (r : Int) + c + 1) 0 0 i j) ≠ (3 + 0, 3 + 0)) →
      MaxPoolingMaskOp.backward ⟨2, 2, 2, 2, 0, 0⟩ 4 4 2 2
        (fun _ _ r c => 4 * (r : Int) + c + 1) (fun _ _ _ _ => 1) 0 0 3 3 = 0) :=
  pool_backward_scatter_add ⟨2, 2, 2, 2, 0, 0⟩ 4 4 2 2
    (fun _ _ r c => 4 * (r : Int) + c + 1) (fun _ _ _ _ => 1) 0 0 3 3 rfl

lemma unpool_plane_writers (poolH poolW : Nat) (mask : MaskPlane) (data : Plane)
    (kw s r cc : Nat) (v : Int)
    (hwrite : ∀ i j, i < poolH → j < poolW →
      namedPos kw s s i j (mask i j) = (r, cc) → data i j = v) :
    ((∃ i j, i < poolH ∧ j < poolW ∧ namedPos kw s s i j (mask i j) = (r, cc)) →
      unpoolForwardPlane poolH poolW mask data kw s r cc = v) ∧
    ((¬ ∃ i j, i < poolH ∧ j < poolW ∧ namedPos kw s s i j (mask i j) = (r, cc)) →
      unpoolForwardPlane poolH poolW mask data kw s r cc = 0) := by
  constructor
  · rintro ⟨i, j, hi, hj, hf⟩
    show (cells poolH poolW).foldl _ 0 = v
    apply foldl_scatter_of_mem (fun ij => namedPos kw s s ij.1 ij.2 (mask ij.1 ij.2))
      (r, cc) (fun ij => data ij.1 ij.2) v (cells poolH poolW) 0
    · intro ij hij hfij
      have hm := mem_cells.1 hij
      exact hwrite ij.1 ij.2 hm.1 hm.2 hfij
    · exact ⟨(i, j), mem_cells.2 ⟨hi, hj⟩, hf⟩
  · intro hno
    show (cells poolH poolW).foldl _ 0 = 0
    apply foldl_scatter_of_forall_not
    intro ij hij hfij
    have hm := mem_cells.1 hij
    exact hno ⟨ij.1, ij.2, hm.1, hm.2, hfij⟩

lemma pool_value_at_named (H W : Nat) (x : Plane) (kh kw s : Nat)
    (hkh : 0 < kh) (hkw : 0 < kw) (i j r cc : Nat)
    (hf : namedPos kw s s i j (maskOff H W x 0 0 kh kw s s i j) = (r, cc)) :
    poolPlane H W x 0 0 kh kw s s i j = paddedVal H W x 0 0 r cc := by
  have h1 := winVal_maskOff H W x 0 0 kh kw s s i j hkh hkw
  have h2 : (i * s + maskOff H W x 0 0 kh kw s s i j / kw,
      j * s + maskOff H W x 0 0 kh kw s s i j % kw) = (r, cc) := hf
  have h3 : i * s + maskOff H W x 0 0 kh kw s s i j / kw = r :=
    congrArg Prod.fst h2
  have h4 : j * s + maskOff H W x 0 0 kh kw s s i j % kw = cc :=
    congrArg Prod.snd h2
  show listMax (windowList H W x 0 0 kh kw s s i j) = paddedVal H W x 0 0 r cc
  rw [← h1, winVal, h3, h4]

/-- C5: for every tensor X and valid window configuration (unpooling
requires zero pad), pooling X and then unpooling the pooled tensor with the
produced mask yields a tensor Y that equals X at every in-bounds input
position named by some mask entry and is zero at every other position. -/
theorem unpool_pool_duality (u : MaxUnpoolingParam) (H W poolH poolW : Nat)
    (x Y : Tensor4) (b c r cc : Nat)
    (hkh : 0 < u.kh) (hkw : 0 < u.kw) (hs : u.sh = u.sw)
    (hph : u.ph = 0) (hpw : u.pw = 0)
    (hY : MaxUnpoolingOp.forward u poolH poolW
        (MaxPoolingMaskOp.forwardOut u.toWindow H W x)
        (MaxPoolingMaskOp.forwardMask u.toWindow H W x) = some Y) :
    ((∃ i j, i < poolH ∧ j < poolW ∧
        namedPos u.kw u.sh u.sh i j
          (MaxPoolingMaskOp.forwardMask u.toWindow H W x b c i j) = (r, cc)) ∧
      r < H ∧ cc < W → Y b c r cc = x b c r cc) ∧
    (¬ ((∃ i j, i < poolH ∧ j < poolW ∧
        namedPos u.kw u.sh u.sh i j
          (MaxPoolingMaskOp.forwardMask u.toWindow H W x b c i j) = (r, cc)) ∧
      r < H ∧ cc < W) → Y b c r cc = 0) := by
  obtain ⟨kh, kw, sh, sw, ph, pw, uh, uw⟩ := u
  dsimp only [MaxUnpoolingParam.toWindow] at *
  subst hs hph hpw
  rw [MaxUnpoolingOp.forward, if_pos ⟨rfl, rfl, rfl⟩] at hY
  have hYe := Option.some.inj hY
  subst hYe
  have hw := unpool_plane_writers poolH poolW
    (fun i j => maskOff H W (x b c) 0 0 kh kw sh sh i j)
    (fun i j => poolPlane H W (x b c) 0 0 kh kw sh sh i j)
    kw sh r cc (paddedVal H W (x b c) 0 0 r cc)
    (fun i j _ _ hf => pool_value_at_named H W (x b c) kh kw sh hkh hkw i j r cc hf)
  constructor
  · rintro ⟨hex, hr, hcc⟩
    have h1 := hw.1 hex
    have h2 : paddedVal H W (x b c) 0 0 r cc = x b c r cc := by
      rw [paddedVal, if_pos (by omega)]
      simp
    rw [← h2]
    exact h1
  · intro hnot
    by_cases hex : ∃ i j, i < poolH ∧ j < poolW ∧
        namedPos kw sh sh i j (maskOff H W (x b c) 0 0 kh kw sh sh i j) = (r, cc)
    · have hb : ¬ (r < H ∧ cc < W) := fun hb => hnot ⟨hex, hb.1, hb.2⟩
      have h1 := hw.1 hex
      have h2 : paddedVal H W (x b c) 0 0 r cc = 0 := by
        rw [paddedVal, if_neg (by omega)]
      rw [h2] at h1
      exact h1
    · exact hw.2 hex

/-- Witness for C5 on the 4×4 input 1..16: input position (1,1) is named by
mask cell (0,0) and keeps its value 6; input position (0,0) is named by no
mask cell and becomes 0. -/
theorem unpool_pool_duality_check :
    unpoolForwardPlane 2 2
        (MaxPoolingMaskOp.forwardMask ⟨2, 2, 2, 2, 0, 0⟩ 4 4
          (fun _ _ r c => 4 * (r : Int) + c + 1) 0 0)
        (MaxPoolingMaskOp.forwardOut ⟨2, 2, 2, 2, 0, 0⟩ 4 4
          (fun _ _ r c => 4 * (r : Int) + c + 1) 0 0) 2 2 1 1
      = (fun _ _ r c => 4 * (r : Int) + c + 1 : Tensor4) 0 0 1 1 ∧
    unpoolForwardPlane 2 2
        (MaxPoolingMaskOp.forwardMask ⟨2, 2, 2, 2, 0, 0⟩ 4 4
          (fun _ _ r c => 4 * (r : Int) + c + 1) 0 0)
        (MaxPoolingMaskOp.forwardOut ⟨2, 2, 2, 2, 0, 0⟩ 4 4
          (fun _ _ r c => 4 * (r : Int) + c + 1) 0 0) 2 2 0 0
      = 0 := by
  constructor
  · exact (unpool_pool_duality ⟨2, 2, 2, 2, 0, 0, 0, 0⟩ 4 4 2 2
      (fun _ _ r c => 4 * (r : Int) + c + 1)
      (fun b c => unpoolForwardPlane 2 2
        (MaxPoolingMaskOp.forwardMask ⟨2, 2, 2, 2, 0, 0⟩ 4 4
          (fun _ _ r c => 4 * (r : Int) + c + 1) b c)
        (MaxPoolingMaskOp.forwardOut ⟨2, 2, 2, 2, 0, 0⟩ 4 4
          (fun _ _ r c => 4 * (r : Int) + c + 1) b c) 2 2)
      0 0 1 1 (by decide) (by decide) rfl rfl rfl rfl).1
      ⟨⟨0, 0, by decide, by decide, by decide⟩, by decide, by decide⟩
  · refine (unpool_pool_duality ⟨2, 2, 2, 2, 0, 0, 0, 0⟩ 4 4 2 2
      (fun _ _ r c => 4 * (r : Int) + c + 1)
      (fun b c => unpoolForwardPlane 2 2
        (MaxPoolingMaskOp.forwardMask ⟨2, 2, 2, 2, 0, 0⟩ 4 4
          (fun _ _ r c => 4 * (r : Int) + c + 1) b c)
        (MaxPoolingMaskOp.forwardOut ⟨2, 2, 2, 2, 0, 0⟩ 4 4
          (fun _ _ r c => 4 * (r : Int) + c + 1) b c) 2 2)
      0 0 0 0 (by decide) (by decide) rfl rfl rfl rfl).2 ?_
    rintro ⟨⟨i, j, hi, hj, hn⟩, -, -⟩
    have hall : ∀ i, i < 2 → ∀ j, j < 2 →
        namedPos 2 2 2 i j (MaxPoolingMaskOp.forwardMask ⟨2, 2, 2, 2, 0, 0⟩ 4 4
          (fun _ _ r c => 4 * (r : Int) + c + 1) 0 0 i j) ≠ (0, 0) := by decide
    exact hall i hi j hj hn

lemma pool_backward_plane_eq_sum (H W outH outW : Nat) (x dP : Plane)
    (ph pw kh kw sh sw : Nat) (r cc : Nat) :
    poolBackwardPlane H W outH outW x dP ph pw kh kw sh sw r cc
      = ∑ i ∈ Finset.range outH, ∑ j ∈ Finset.range outW,
          if namedPos kw sh sw i j (maskOff H W x ph pw kh kw sh sw i j) = (r + ph, cc + pw)
          then dP i j else 0 := by
  show (cells outH outW).foldl _ 0 = _
  rw [foldl_accum_eq_sum (fun ij => namedPos kw sh sw ij.1 ij.2
      (maskOff H W x ph pw kh kw sh sw ij.1 ij.2)) (r + ph, cc + pw)
      (fun ij => dP ij.1 ij.2) (cells outH outW) 0]
  rw [sum_map_cells]
  simp

lemma sum_swap4 (H W A B : Nat) (T : Nat → Nat → Nat → Nat → Int) :
    (∑ r ∈ Finset.range H, ∑ cc ∈ Finset.range W,
        ∑ i ∈ Finset.range A, ∑ j ∈ Finset.range B, T r cc i j)
      = ∑ i ∈ Finset.range A, ∑ j ∈ Finset.range B,
          ∑ r ∈ Finset.range H, ∑ cc ∈ Finset.range W, T r cc i j :=
  calc
    (∑ r ∈ Finset.range H, ∑ cc ∈ Finset.range W, ∑ i ∈ Finset.range A,
        ∑ j ∈ Finset.range B, T r cc i j)
        = ∑ r ∈ Finset.range H, ∑ i ∈ Finset.range A, ∑ cc ∈ Finset.range W,
            ∑ j ∈ Finset.range B, T r cc i j :=
      Finset.sum_congr rfl fun r _ => Finset.sum_comm
    _ = ∑ i ∈ Finset.range A, ∑ r ∈ Finset.range H, ∑ cc ∈ Finset.range W,
          ∑ j ∈ Finset.range B, T r cc i j := Finset.sum_comm
    _ = ∑ i ∈ Finset.range A, ∑ r ∈ Finset.range H, ∑ j ∈ Finset.range B,
          ∑ cc ∈ Finset.range W, T r cc i j :=
      Finset.sum_congr rfl fun i _ => Finset.sum_congr rfl fun r _ => Finset.sum_comm
    _ = ∑ i ∈ Finset.range A, ∑ j ∈ Finset.range B, ∑ r ∈ Finset.range H,
          ∑ cc ∈ Finset.range W, T r cc i j :=
      Finset.sum_congr rfl fun i _ => Finset.sum_comm

lemma namedPos_lt_of_tile (H W : Nat) (x : Plane) (s t : Nat)
    (hs : 0 < s) (ht : 0 < t) (hdH : s ∣ H) (hdW : t ∣ W)
    (i j : Nat) (hi : i < H / s) (hj : j < W / t) :
    (namedPos t s t i j (maskOff H W x 0 0 s t s t i j)).1 < H ∧
    (namedPos t s t i j (maskOff H W x 0 0 s t s t i j)).2 < W := by
  have hofflt := maskOff_lt H W x 0 0 s t s t i j hs ht
  constructor
  · show i * s + maskOff H W x 0 0 s t s t i j / t < H
    have h1 : maskOff H W x 0 0 s t s t i j / t < s :=
      (Nat.div_lt_iff_lt_mul ht).2 hofflt
    have h2 : (i + 1) * s ≤ (H / s) * s := mul_le_mul_right' (by omega) s
    have h3 : (H / s) * s = H := Nat.div_mul_cancel hdH
    have h4 : (i + 1) * s = i * s + s := by ring
    omega
  · show j * t + maskOff H W x 0 0 s t s t i j % t < W
    have h1 : maskOff H W x 0 0 s t s t i j % t < t :=
      Nat.mod_lt _ ht
    have h2 : (j + 1) * t ≤ (W / t) * t := mul_le_mul_right' (by omega) t
    have h3 : (W / t) * t = W := Nat.div_mul_cancel hdW
    have h4 : (j + 1) * t = j * t + t := by ring
    omega

lemma pool_backward_plane_conservation (H W : Nat) (x dP : Plane) (s t : Nat)
    (hs : 0 < s) (ht : 0 < t) (hdH : s ∣ H) (hdW : t ∣ W) (hH : 0 < H) (hW : 0 < W) :
    (∑ r ∈ Finset.range H, ∑ cc ∈ Finset.range W,
        poolBackwardPlane H W (poolOutDim H s s 0) (poolOutDim W t t 0)
          x dP 0 0 s t s t r cc)
      = ∑ i ∈ Finset.range (poolOutDim H s s 0),
          ∑ j ∈ Finset.range (poolOutDim W t t 0), dP i j := by
  have hoH : poolOutDim H s s 0 = H / s := poolOutDim_tile H s hs hdH hH
  have hoW : poolOutDim W t t 0 = W / t := poolOutDim_tile W t ht hdW hW
  rw [hoH, hoW]
  have hrw : ∀ r cc, poolBackwardPlane H W (H / s) (W / t) x dP 0 0 s t s t r cc
      = ∑ i ∈ Finset.range (H / s), ∑ j ∈ Finset.range (W / t),
          if namedPos t s t i j (maskOff H W x 0 0 s t s t i j) = (r, cc)
          then dP i j else 0 := by
    intro r cc
    have h := pool_backward_plane_eq_sum H W (H / s) (W / t) x dP 0 0 s t s t r cc
    simpa using h
  calc
    (∑ r ∈ Finset.range H, ∑ cc ∈ Finset.range W,
        poolBackwardPlane H W (H / s) (W / t) x dP 0 0 s t s t r cc)
        = ∑ r ∈ Finset.range H, ∑ cc ∈ Finset.range W,
            ∑ i ∈ Finset.range (H / s), ∑ j ∈ Finset.range (W / t),
              (if namedPos t s t i j (maskOff H W x 0 0 s t s t i j) = (r, cc)
               then dP i j else 0) :=
      Finset.sum_congr rfl fun r _ => Finset.sum_congr rfl fun cc _ => hrw r cc
    _ = ∑ i ∈ Finset.range (H / s), ∑ j ∈ Finset.range (W / t),
          ∑ r ∈ Finset.range H, ∑ cc ∈ Finset.range W,
            (if namedPos t s t i j (maskOff H W x 0 0 s t s t i j) = (r, cc)
             then dP i j else 0) := sum_swap4 H W (H / s) (W / t) _
    _ = ∑ i ∈ Finset.range (H / s), ∑ j ∈ Finset.range (W / t), dP i j := by
      refine Finset.sum_congr rfl fun i hi => Finset.sum_congr rfl fun j hj => ?_
      have hb := namedPos_lt_of_tile H W x s t hs ht hdH hdW i j
        (Finset.mem_range.1 hi) (Finset.mem_range.1 hj)
      exact sum_box_ite H W _ (dP i j) hb.1 hb.2

/-- C6 counterexample: with stride = kernel = (2,2), pad (0,0), a 3×2 input
of all −1 and an all-ones upstream gradient (output shape 2×1 per the
shape-inference formula), the total backward gradient is 1 while the total
upstream gradient is 2: the window overhanging the bottom edge attains its
maximum (the zero padding value) first at an out-of-bounds position, so its
gradient is dropped. -/
theorem pool_backward_gradient_not_conserved :
    poolOutDim 3 2 2 0 = 2 ∧ poolOutDim 2 2 2 0 = 1 ∧
    sum4 1 1 3 2 (MaxPoolingMaskOp.backward ⟨2, 2, 2, 2, 0, 0⟩ 3 2 2 1
        (fun _ _ _ _ => -1) (fun _ _ _ _ => 1)) = 1 ∧
    sum4 1 1 2 1 (fun _ _ _ _ => (1 : Int)) = 2 := by
  decide

/-- C6 amended: when stride = kernel, pad = (0,0), and the stride exactly
tiles the input (stride divides the input height and width), the sum of the
backward input gradient over the whole tensor equals the sum of the
upstream gradient over the whole tensor. -/
theorem pool_backward_gradient_conservation (p : WindowConfig) (B C H W : Nat)
    (x dPooled : Tensor4)
    (hkh : p.kh = p.sh) (hkw : p.kw = p.sw) (hph : p.ph = 0) (hpw : p.pw = 0)
    (hsh : 0 < p.sh) (hsw : 0 < p.sw)
    (hdH : p.sh ∣ H) (hdW : p.sw ∣ W) (hH : 0 < H) (hW : 0 < W) :
    sum4 B C H W (MaxPoolingMaskOp.backward p H W
        (poolOutDim H p.kh p.sh p.ph) (poolOutDim W p.kw p.sw p.pw) x dPooled)
      = sum4 B C (poolOutDim H p.kh p.sh p.ph) (poolOutDim W p.kw p.sw p.pw)
          dPooled := by
  obtain ⟨kh, kw, sh, sw, ph, pw⟩ := p
  dsimp only at *
  subst hkh hkw hph hpw
  unfold sum4
  refine Finset.sum_congr rfl fun b _ => Finset.sum_congr rfl fun c _ => ?_
  exact pool_backward_plane_conservation H W (x b c) (dPooled b c) kh kw
    hsh hsw hdH hdW hH hW

/-- Witness for C6's amended claim: kernel = stride = (2,2), pad (0,0) on a
1×1×2×2 tensor of all 5 with unit upstream gradient. -/
theorem pool_backward_gradient_conservation_check :
    sum4 1 1 2 2 (MaxPoolingMaskOp.backward ⟨2, 2, 2, 2, 0, 0⟩ 2 2
        (poolOutDim 2 2 2 0) (poolOutDim 2 2 2 0)
        (fun _ _ _ _ => 5) (fun _ _ _ _ => 1))
      = sum4 1 1 (poolOutDim 2 2 2 0) (poolOutDim 2 2 2 0) (fun _ _ _ _ => 1) :=
  pool_backward_gradient_conservation ⟨2, 2, 2, 2, 0, 0⟩ 1 1 2 2
    (fun _ _ _ _ => 5) (fun _ _ _ _ => 1) rfl rfl rfl rfl (by decide) (by decide)
    (by decide) (by decide) (by decide) (by decide)

end MxnetPoolMask
